import Mathlib

/-!
Shallow embedding of the engagement-score computation engine of the
engaged-papers repository (`src/app/api/papers/route.ts`, functions
`normalize`, `computeEngagementScore` and `computeEngagementScoresForDate`).

JavaScript numbers are modelled as rationals (`ℚ`); the spec demands no
floating-point precision beyond "standard double precision", and every claim
is about exact branch structure and order, not representation error.  A JS
`Date` is modelled by its epoch-millisecond value `getTime()` together with
its local-time `getHours()` and `getMinutes()` components; `new Date()` (the
clock read at the top of the fallback) becomes an explicit `now : ℚ`
parameter, also in epoch milliseconds.

The early `return`s of the fallback cascade are modelled by `Option ℚ`
values (`some s` = early return with `s`, `none` = fall through), and the
nested blocks of the source become separate definitions named after the line
ranges of `src/app/api/papers/route.ts` they embed, so that each branch can
be reasoned about in isolation.

A second embedding `computeEngagementScoreE` into `Except String ℚ` tracks
the two places where JS evaluation could produce a non-finite value (a
division whose divisor is zero, and `Math.max`/`Math.min` over an empty
spread, which in JS yield `NaN`/`±Infinity`); the theorem for the totality
claim shows it always returns `.ok` of the plain score.
-/

namespace EngagedPapers

/-- A JS `Date` as observed by the scorer: `time` is `getTime()` in epoch
milliseconds; `hours` and `minutes` are `getHours()` / `getMinutes()`. -/
structure JsDate where
  time : ℚ
  hours : ℚ
  minutes : ℚ
deriving DecidableEq

/-- `new Date(0)`, pushed into `publishedDates` for metrics with an absent
`published_at` (route.ts line 158); its clock components are those of the
epoch (taken in UTC). -/
def epochDate : JsDate := ⟨0, 0, 0⟩

/-- One element of the `allMetrics` batch, restricted to the two fields the
scorer reads: `downloads_7d` (which holds the citation count) and the parsed
`published_at` (`none` models a null / absent / empty value, which is falsy
in the JS truthiness tests of the source). -/
structure PaperMetric where
  downloads_7d : ℚ
  published_at : Option JsDate
deriving DecidableEq

/-- `Math.min(...l, x)`: minimum of a spread list together with a final
explicit argument; the spread is never empty-with-no-extra-argument in the
source, so no `Infinity` case arises here. -/
def jsMin (l : List ℚ) (x : ℚ) : ℚ := l.foldr min x

/-- `Math.max(...l, x)`. -/
def jsMax (l : List ℚ) (x : ℚ) : ℚ := l.foldr max x

/-- `Math.max(...l)` for a list that the surrounding code guards to be
nonempty (in JS the empty spread would yield `-Infinity`; the `[]` case here
is unreachable under that guard, and `computeEngagementScoreE` below tracks
that fact explicitly). -/
def jsMaxNE : List ℚ → ℚ
  | [] => 0
  | x :: xs => xs.foldl max x

/-- `Math.min(...l)` under the same nonemptiness guard. -/
def jsMinNE : List ℚ → ℚ
  | [] => 0
  | x :: xs => xs.foldl min x

/-- route.ts lines 109–114: min-max normalization with the degenerate-case
policy `if (max === 0 || max === min) return 0`. -/
def normalize (value mn mx : ℚ) : ℚ :=
  if mx = 0 ∨ mx = mn then 0 else (value - mn) / (mx - mn)

/-- route.ts lines 153–155 (and again 167–168): the recency weight
`1 / (1 + hoursSincePublished / 24)` with
`hoursSincePublished = Math.max(0, (now - published) / (1000*60*60))`. -/
def recencyScoreAt (now : ℚ) (d : JsDate) : ℚ :=
  let hoursSincePublished := max 0 ((now - d.time) / (1000 * 60 * 60))
  1 / (1 + hoursSincePublished / 24)

/-- route.ts lines 177–178: `getHours() + getMinutes() / 60`. -/
def hourOfDay (d : JsDate) : ℚ := d.hours + d.minutes / 60

/-- route.ts lines 143–161, the loop accumulating `recencyScores`: weight
`1/(1 + hoursSincePublished/24)` for a known `published_at`, `0` for an
absent one. -/
def recencyScoresOf (now : ℚ) (allMetrics : List PaperMetric) : List ℚ :=
  allMetrics.map (fun m =>
    match m.published_at with
    | some d => recencyScoreAt now d
    | none => 0)

/-- route.ts lines 143–161, the loop accumulating `publishedDates`: the
parsed date for a known `published_at`, `new Date(0)` for an absent one. -/
def publishedDatesOf (allMetrics : List PaperMetric) : List JsDate :=
  allMetrics.map (fun m =>
    match m.published_at with
    | some d => d
    | none => epochDate)

/-- route.ts lines 184–188 (and identically lines 193–197): locate the
current item as the index of the *first* metric whose `downloads_7d` equals
the queried value (`none` models the JS `findIndex` result `-1`), then
return `1 - paperIndex / (allMetrics.length - 1)` provided the index was
found and the batch has more than one element. -/
def indexTiebreak (downloads7d : ℚ) (allMetrics : List PaperMetric) : Option ℚ :=
  match allMetrics.findIdx? (fun m => decide (m.downloads_7d = downloads7d)) with
  | some paperIndex =>
    if allMetrics.length > 1 then
      some (1 - (paperIndex : ℚ) / ((allMetrics.length : ℚ) - 1))
    else none
  | none => none

/-- route.ts lines 163–191, the recency fallback block: guarded by
`recencyScores.length > 0 && Math.max(...recencyScores) > 0` (the `&&`
short-circuit keeps the spread nonempty), it locates the current item as the
*first* metric whose `downloads_7d` equals the queried value, and — when that
metric has a known `published_at` — min-max normalizes its recency weight,
falling back to the time-of-day tiebreaker and then the index tiebreaker. -/
def recencyTiebreak (now downloads7d : ℚ) (allMetrics : List PaperMetric) : Option ℚ :=
  let recencyScores := recencyScoresOf now allMetrics
  if recencyScores.length > 0 ∧ jsMaxNE recencyScores > 0 then
    match allMetrics.find? (fun m => decide (m.downloads_7d = downloads7d)) with
    | some currentMetric =>
      match currentMetric.published_at with
      | some currentPublishedDate =>
        let currentRecency := recencyScoreAt now currentPublishedDate
        let minRecency := jsMinNE recencyScores
        let maxRecency := jsMaxNE recencyScores
        if maxRecency > minRecency then
          some (normalize currentRecency minRecency maxRecency)
        else if maxRecency > 0 then
          -- all papers have the same recency: time-of-day tiebreaker
          let currentHours := hourOfDay currentPublishedDate
          let allHours := (publishedDatesOf allMetrics).map hourOfDay
          let minHours := jsMinNE allHours
          let maxHours := jsMaxNE allHours
          if maxHours > minHours then
            some (normalize currentHours minHours maxHours)
          else
            indexTiebreak downloads7d allMetrics
        else none
      | none => none
    | none => none
  else none

/-- route.ts lines 193–199, the final fallback: the index rule again, with
`0` when the index rule does not apply. -/
def finalFallback (downloads7d : ℚ) (allMetrics : List PaperMetric) : ℚ :=
  match indexTiebreak downloads7d allMetrics with
  | some s => s
  | none => 0

/-- route.ts lines 122–200, `computeEngagementScore`.  The `githubRepoCount`
and `publishedAt` parameters are declared, as in the source, and — as in the
source — never read by the body. -/
def computeEngagementScore (now : ℚ) (downloads7d : ℚ) (githubRepoCount : ℚ)
    (allMetrics : List PaperMetric) (publishedAt : Option JsDate) : ℚ :=
  let downloads7dCounts := allMetrics.map (fun m => m.downloads_7d)
  let minDownloads := jsMin downloads7dCounts 0
  let maxDownloads := jsMax downloads7dCounts 0
  -- If we have citations, use them (lines 134–137)
  if maxDownloads > 0 then
    normalize downloads7d minDownloads maxDownloads
  else
    -- recency fallback cascade (lines 139–191), then final fallback
    match recencyTiebreak now downloads7d allMetrics with
    | some s => s
    | none => finalFallback downloads7d allMetrics

/-! ### Evaluation-tracking embedding (for the totality claim)

The same function, with every JS arithmetic step that could produce a
non-finite value made explicit: a division returns `.error` when its divisor
is zero (JS: `NaN` or `±Infinity`), and `Math.max`/`Math.min` over an empty
spread returns `.error` (JS: `-Infinity`/`Infinity`). -/

/-- Division, flagging a zero divisor. -/
def divE (a b : ℚ) : Except String ℚ :=
  if b = 0 then .error "division with zero divisor yields a non-finite value"
  else .ok (a / b)

/-- `Math.max(...l)`, flagging the empty spread. -/
def jsMaxNEE : List ℚ → Except String ℚ
  | [] => .error "Math.max of an empty spread is -Infinity"
  | x :: xs => .ok (xs.foldl max x)

/-- `Math.min(...l)`, flagging the empty spread. -/
def jsMinNEE : List ℚ → Except String ℚ
  | [] => .error "Math.min of an empty spread is Infinity"
  | x :: xs => .ok (xs.foldl min x)

/-- `normalize` with its division tracked. -/
def normalizeE (value mn mx : ℚ) : Except String ℚ :=
  if mx = 0 ∨ mx = mn then .ok 0 else divE (value - mn) (mx - mn)

/-- The recency weight with its divisions tracked. -/
def recencyScoreAtE (now : ℚ) (d : JsDate) : Except String ℚ := do
  let q ← divE (now - d.time) (1000 * 60 * 60)
  let hoursSincePublished := max 0 q
  let r ← divE hoursSincePublished 24
  divE 1 (1 + r)

/-- `getHours() + getMinutes() / 60` with its division tracked. -/
def hourOfDayE (d : JsDate) : Except String ℚ := do
  let q ← divE d.minutes 60
  pure (d.hours + q)

/-- The `recencyScores` loop with each weight's divisions tracked. -/
def recencyScoresOfE (now : ℚ) : List PaperMetric → Except String (List ℚ)
  | [] => pure []
  | m :: rest => do
    let w ←
      match m.published_at with
      | some d => recencyScoreAtE now d
      | none => pure (0 : ℚ)
    let ws ← recencyScoresOfE now rest
    pure (w :: ws)

/-- The `allHours` computation with each item's division tracked. -/
def allHoursOfE : List JsDate → Except String (List ℚ)
  | [] => pure []
  | d :: rest => do
    let h ← hourOfDayE d
    let hs ← allHoursOfE rest
    pure (h :: hs)

/-- The index rule with its division tracked. -/
def indexTiebreakE (downloads7d : ℚ) (allMetrics : List PaperMetric) :
    Except String (Option ℚ) :=
  match allMetrics.findIdx? (fun m => decide (m.downloads_7d = downloads7d)) with
  | some paperIndex =>
    if allMetrics.length > 1 then do
      let q ← divE (paperIndex : ℚ) ((allMetrics.length : ℚ) - 1)
      pure (some (1 - q))
    else pure none
  | none => pure none

/-- The recency fallback block with every risky evaluation tracked; the JS
`&&` short-circuit of line 163 becomes the nested `if`, so `Math.max` is
only evaluated on a nonempty spread. -/
def recencyTiebreakE (now downloads7d : ℚ) (allMetrics : List PaperMetric) :
    Except String (Option ℚ) := do
  let recencyScores ← recencyScoresOfE now allMetrics
  if recencyScores.length > 0 then do
    let guardMax ← jsMaxNEE recencyScores
    if guardMax > 0 then
      match allMetrics.find? (fun m => decide (m.downloads_7d = downloads7d)) with
      | some currentMetric =>
        match currentMetric.published_at with
        | some currentPublishedDate => do
          let currentRecency ← recencyScoreAtE now currentPublishedDate
          let minRecency ← jsMinNEE recencyScores
          let maxRecency ← jsMaxNEE recencyScores
          if maxRecency > minRecency then do
            let s ← normalizeE currentRecency minRecency maxRecency
            pure (some s)
          else if maxRecency > 0 then do
            let currentHours ← hourOfDayE currentPublishedDate
            let allHours ← allHoursOfE (publishedDatesOf allMetrics)
            let minHours ← jsMinNEE allHours
            let maxHours ← jsMaxNEE allHours
            if maxHours > minHours then do
              let s ← normalizeE currentHours minHours maxHours
              pure (some s)
            else indexTiebreakE downloads7d allMetrics
          else pure none
        | none => pure none
      | none => pure none
    else pure none
  else pure none

/-- The final fallback with its division tracked. -/
def finalFallbackE (downloads7d : ℚ) (allMetrics : List PaperMetric) :
    Except String ℚ := do
  let t ← indexTiebreakE downloads7d allMetrics
  match t with
  | some s => pure s
  | none => pure 0

/-- `computeEngagementScore` with every risky evaluation tracked. -/
def computeEngagementScoreE (now : ℚ) (downloads7d : ℚ) (githubRepoCount : ℚ)
    (allMetrics : List PaperMetric) (publishedAt : Option JsDate) :
    Except String ℚ :=
  let downloads7dCounts := allMetrics.map (fun m => m.downloads_7d)
  let minDownloads := jsMin downloads7dCounts 0
  let maxDownloads := jsMax downloads7dCounts 0
  if maxDownloads > 0 then
    normalizeE downloads7d minDownloads maxDownloads
  else do
    let t ← recencyTiebreakE now downloads7d allMetrics
    match t with
    | some s => pure s
    | none => finalFallbackE downloads7d allMetrics

/-! ### The batch recomputation pipeline (`computeEngagementScoresForDate`)

route.ts lines 206–285.  The store reads at the top (metric rows for the
snapshot date, and the `paper_id → published_at` map built from the `papers`
table) are modelled as the function's inputs; the per-item store write is
modelled by a caller-supplied `write` function whose result is `none` on
success and `some msg` on failure — mirroring the `{ error: updateError }`
shape of the supabase response.  The write loop (lines 275–284) logs a
failure and continues; it has no early exit. -/

/-- One row of `paper_metrics` as fetched for the snapshot date. -/
structure MetricRow where
  id : String
  paper_id : String
  downloads_7d : ℚ
  github_repo_count : ℚ
deriving DecidableEq

/-- A row with its `published_at` attached (route.ts lines 249–252:
`paperDateMap.get(m.paper_id) || null`). -/
structure MetricWithDate where
  row : MetricRow
  published_at : Option JsDate
deriving DecidableEq

/-- Projection of an enriched row onto the fields `computeEngagementScore`
reads from its batch elements. -/
def MetricWithDate.toPaperMetric (m : MetricWithDate) : PaperMetric :=
  ⟨m.row.downloads_7d, m.published_at⟩

/-- route.ts lines 255–258, the sort comparator
`(a, b) => { if (!a.published_at || !b.published_at) return 0;
return new Date(b).getTime() - new Date(a).getTime(); }` expressed as the
stable-sort keep-in-order relation `compare(a, b) ≤ 0`. -/
def publishedDescLe (a b : MetricWithDate) : Bool :=
  match a.published_at, b.published_at with
  | none, _ => true
  | _, none => true
  | some da, some db => decide (db.time - da.time ≤ 0)

/-- route.ts lines 249–272: attach published dates, sort newest first
(stable, as JS `Array.prototype.sort` is), then compute each row's score
against the whole sorted batch, producing the `updates` list of
`(id, engagement_score)` pairs. -/
def scoreUpdates (now : ℚ) (metrics : List MetricRow)
    (paperDateMap : String → Option JsDate) : List (String × ℚ) :=
  let metricsWithDates : List MetricWithDate :=
    metrics.map (fun m => ⟨m, paperDateMap m.paper_id⟩)
  let sorted := metricsWithDates.mergeSort publishedDescLe
  sorted.map (fun m =>
    (m.row.id,
      computeEngagementScore now m.row.downloads_7d m.row.github_repo_count
        (sorted.map MetricWithDate.toPaperMetric) m.published_at))

/-- route.ts lines 275–284, the write loop: each update is attempted in
order; a failed write (`some msg`) is recorded for that item and the loop
continues with the next item — there is no `break`, `throw` or early
`return` in the loop body. -/
def runUpdates (write : String × ℚ → Option String) :
    List (String × ℚ) → List (String × Option String)
  | [] => []
  | u :: rest => (u.1, write u) :: runUpdates write rest

/-- route.ts lines 206–285 end to end on already-fetched data: compute all
updates, then attempt every write, returning the per-item write trace. -/
def computeEngagementScoresForDate (now : ℚ) (metrics : List MetricRow)
    (paperDateMap : String → Option JsDate)
    (write : String × ℚ → Option String) : List (String × Option String) :=
  runUpdates write (scoreUpdates now metrics paperDateMap)

/-! ### Bounds for the JS min/max helpers -/

theorem init_le_foldl_max (xs : List ℚ) (a : ℚ) : a ≤ xs.foldl max a := by
  induction xs generalizing a with
  | nil => exact le_refl a
  | cons x xs ih => exact le_trans (le_max_left a x) (ih (max a x))

theorem le_foldl_max_of_mem {y : ℚ} (xs : List ℚ) (a : ℚ) (h : y ∈ xs) :
    y ≤ xs.foldl max a := by
  induction xs generalizing a with
  | nil => cases h
  | cons x xs ih =>
    rcases List.mem_cons.mp h with rfl | h'
    · exact le_trans (le_max_right a y) (init_le_foldl_max xs (max a y))
    · exact ih (max a x) h'

theorem foldl_min_le_init (xs : List ℚ) (a : ℚ) : xs.foldl min a ≤ a := by
  induction xs generalizing a with
  | nil => exact le_refl a
  | cons x xs ih => exact le_trans (ih (min a x)) (min_le_left a x)

theorem foldl_min_le_of_mem {y : ℚ} (xs : List ℚ) (a : ℚ) (h : y ∈ xs) :
    xs.foldl min a ≤ y := by
  induction xs generalizing a with
  | nil => cases h
  | cons x xs ih =>
    rcases List.mem_cons.mp h with rfl | h'
    · exact le_trans (foldl_min_le_init xs (min a y)) (min_le_right a y)
    · exact ih (min a x) h'

theorem le_jsMaxNE_of_mem {y : ℚ} {l : List ℚ} (h : y ∈ l) : y ≤ jsMaxNE l := by
  match l with
  | [] => cases h
  | x :: xs =>
    rcases List.mem_cons.mp h with rfl | h'
    · exact init_le_foldl_max xs y
    · exact le_foldl_max_of_mem xs x h'

theorem jsMinNE_le_of_mem {y : ℚ} {l : List ℚ} (h : y ∈ l) : jsMinNE l ≤ y := by
  match l with
  | [] => cases h
  | x :: xs =>
    rcases List.mem_cons.mp h with rfl | h'
    · exact foldl_min_le_init xs y
    · exact foldl_min_le_of_mem xs x h'

theorem jsMin_le_base (l : List ℚ) (x : ℚ) : jsMin l x ≤ x := by
  induction l with
  | nil => exact le_refl x
  | cons z zs ih => exact le_trans (min_le_right z (jsMin zs x)) ih

theorem jsMin_le_of_mem {y : ℚ} (l : List ℚ) (x : ℚ) (h : y ∈ l) :
    jsMin l x ≤ y := by
  induction l with
  | nil => cases h
  | cons z zs ih =>
    rcases List.mem_cons.mp h with rfl | h'
    · exact min_le_left y (jsMin zs x)
    · exact le_trans (min_le_right z (jsMin zs x)) (ih h')

theorem base_le_jsMax (l : List ℚ) (x : ℚ) : x ≤ jsMax l x := by
  induction l with
  | nil => exact le_refl x
  | cons z zs ih => exact le_trans ih (le_max_right z (jsMax zs x))

theorem le_jsMax_of_mem {y : ℚ} (l : List ℚ) (x : ℚ) (h : y ∈ l) :
    y ≤ jsMax l x := by
  induction l with
  | nil => cases h
  | cons z zs ih =>
    rcases List.mem_cons.mp h with rfl | h'
    · exact le_max_left y (jsMax zs x)
    · exact le_trans (ih h') (le_max_right z (jsMax zs x))

theorem jsMax_le {c : ℚ} (l : List ℚ) (x : ℚ) (h : ∀ y ∈ l, y ≤ c)
    (hx : x ≤ c) : jsMax l x ≤ c := by
  induction l with
  | nil => exact hx
  | cons z zs ih =>
    exact max_le (h z (List.mem_cons_self z zs))
      (ih (fun y hy => h y (List.mem_cons_of_mem z hy)))

theorem le_jsMin {c : ℚ} (l : List ℚ) (x : ℚ) (h : ∀ y ∈ l, c ≤ y)
    (hx : c ≤ x) : c ≤ jsMin l x := by
  induction l with
  | nil => exact hx
  | cons z zs ih =>
    exact le_min (h z (List.mem_cons_self z zs))
      (ih (fun y hy => h y (List.mem_cons_of_mem z hy)))

/-! ### Bounds and shape of `normalize` and the index rule -/

/-- Any `normalize` output whose value lies between the claimed bounds is in
the unit interval (including via the degenerate-case `0`). -/
theorem normalize_bounds {v mn mx : ℚ} (h1 : mn ≤ v) (h2 : v ≤ mx) :
    0 ≤ normalize v mn mx ∧ normalize v mn mx ≤ 1 := by
  unfold normalize
  split
  · exact ⟨le_refl 0, zero_le_one⟩
  · rename_i h
    push_neg at h
    have hlt : mn < mx := lt_of_le_of_ne (le_trans h1 h2) (Ne.symm h.2)
    have hd : 0 < mx - mn := sub_pos.mpr hlt
    refine ⟨div_nonneg (sub_nonneg.mpr h1) hd.le, ?_⟩
    rw [div_le_one hd]
    linarith

/-- When the range is nondegenerate and the maximum nonzero, `normalize` is
the plain min-max formula. -/
theorem normalize_eq_div {v mn mx : ℚ} (h1 : mn < mx) (h2 : mx ≠ 0) :
    normalize v mn mx = (v - mn) / (mx - mn) := by
  unfold normalize
  rw [if_neg]
  push_neg
  exact ⟨h2, ne_of_gt h1⟩

/-- The positional score `1 - i/(n-1)` is in the unit interval for a found
index `i < n` in a batch of `n > 1` items. -/
theorem index_score_bounds {i n : ℕ} (hi : i < n) (hn : 1 < n) :
    0 ≤ 1 - (i : ℚ) / ((n : ℚ) - 1) ∧ 1 - (i : ℚ) / ((n : ℚ) - 1) ≤ 1 := by
  have hd : (0 : ℚ) < (n : ℚ) - 1 := by
    have : (1 : ℚ) < (n : ℚ) := by exact_mod_cast hn
    linarith
  have hle : (i : ℚ) ≤ (n : ℚ) - 1 := by
    have : (i : ℚ) + 1 ≤ (n : ℚ) := by exact_mod_cast hi
    linarith
  constructor
  · have : (i : ℚ) / ((n : ℚ) - 1) ≤ 1 := by
      rw [div_le_one hd]; exact hle
    linarith
  · have : 0 ≤ (i : ℚ) / ((n : ℚ) - 1) := div_nonneg (Nat.cast_nonneg i) hd.le
    linarith

/-- Every early-return value of the index tiebreaker is in `[0, 1]`. -/
theorem indexTiebreak_bounds {downloads7d : ℚ} {l : List PaperMetric} {s : ℚ}
    (h : indexTiebreak downloads7d l = some s) : 0 ≤ s ∧ s ≤ 1 := by
  unfold indexTiebreak at h
  split at h
  · rename_i i hi
    split at h
    · rename_i hn
      have hlen : i < l.length :=
        (List.findIdx?_eq_some_iff_findIdx_eq.mp hi).1
      cases h
      exact index_score_bounds hlen hn
    · cases h
  · cases h

/-- The final fallback is in `[0, 1]`. -/
theorem finalFallback_bounds (downloads7d : ℚ) (l : List PaperMetric) :
    0 ≤ finalFallback downloads7d l ∧ finalFallback downloads7d l ≤ 1 := by
  unfold finalFallback
  split
  · rename_i s hs
    exact indexTiebreak_bounds hs
  · exact ⟨le_refl 0, zero_le_one⟩

/-- Every early-return value of the recency fallback block is in `[0, 1]`:
the current metric located by `find?` is an element of the batch, so its
recency weight (resp. its hour-of-day) lies between the batch minimum and
maximum that it is normalized against. -/
theorem recencyTiebreak_bounds {now downloads7d : ℚ} {l : List PaperMetric}
    {s : ℚ} (h : recencyTiebreak now downloads7d l = some s) :
    0 ≤ s ∧ s ≤ 1 := by
  simp only [recencyTiebreak] at h
  split at h
  · -- guard `length > 0 ∧ max > 0` holds
    split at h
    · rename_i currentMetric hfind
      have hmem : currentMetric ∈ l := List.mem_of_find?_eq_some hfind
      split at h
      · rename_i currentPublishedDate hpub
        have hrecmem :
            recencyScoreAt now currentPublishedDate ∈ recencyScoresOf now l := by
          unfold recencyScoresOf
          have := List.mem_map_of_mem
            (fun m => match m.published_at with
              | some d => recencyScoreAt now d
              | none => (0 : ℚ)) hmem
          simp only [hpub] at this
          exact this
        split at h
        · -- maxRecency > minRecency: min-max normalized recency
          cases h
          exact normalize_bounds (jsMinNE_le_of_mem hrecmem)
            (le_jsMaxNE_of_mem hrecmem)
        · split at h
          · -- time-of-day tiebreaker
            have hdatemem : currentPublishedDate ∈ publishedDatesOf l := by
              unfold publishedDatesOf
              have := List.mem_map_of_mem
                (fun m => match m.published_at with
                  | some d => d
                  | none => epochDate) hmem
              simp only [hpub] at this
              exact this
            have hhourmem : hourOfDay currentPublishedDate ∈
                (publishedDatesOf l).map hourOfDay :=
              List.mem_map_of_mem hourOfDay hdatemem
            split at h
            · cases h
              exact normalize_bounds (jsMinNE_le_of_mem hhourmem)
                (le_jsMaxNE_of_mem hhourmem)
            · exact indexTiebreak_bounds h
          · cases h
      · cases h
    · cases h
  · cases h

/-- Unfolding: primary citation path, active when
`Math.max(...downloads, 0) > 0`. -/
theorem computeEngagementScore_eq_primary {now downloads7d githubRepoCount : ℚ}
    {l : List PaperMetric} {publishedAt : Option JsDate}
    (h : jsMax (l.map (fun m => m.downloads_7d)) 0 > 0) :
    computeEngagementScore now downloads7d githubRepoCount l publishedAt =
      normalize downloads7d (jsMin (l.map (fun m => m.downloads_7d)) 0)
        (jsMax (l.map (fun m => m.downloads_7d)) 0) := by
  simp only [computeEngagementScore]
  rw [if_pos h]

/-- Unfolding: fallback cascade, active when
`Math.max(...downloads, 0) ≤ 0`. -/
theorem computeEngagementScore_eq_fallback {now downloads7d githubRepoCount : ℚ}
    {l : List PaperMetric} {publishedAt : Option JsDate}
    (h : ¬ jsMax (l.map (fun m => m.downloads_7d)) 0 > 0) :
    computeEngagementScore now downloads7d githubRepoCount l publishedAt =
      (match recencyTiebreak now downloads7d l with
        | some s => s
        | none => finalFallback downloads7d l) := by
  simp only [computeEngagementScore]
  rw [if_neg h]

/-- **C1.** For every batch of metrics whose citation counts (`downloads_7d`)
are non-negative, every engagement score `computeEngagementScore` returns
for an item of that batch lies in the closed interval `[0, 1]` — on the
primary citation path, on every fallback branch, and on the final default. -/
theorem engagementScore_mem_unitInterval (now downloads7d githubRepoCount : ℚ)
    (allMetrics : List PaperMetric) (publishedAt : Option JsDate)
    (hnn : ∀ m ∈ allMetrics, 0 ≤ m.downloads_7d)
    (hitem : ∃ m ∈ allMetrics, m.downloads_7d = downloads7d) :
    0 ≤ computeEngagementScore now downloads7d githubRepoCount allMetrics
        publishedAt ∧
      computeEngagementScore now downloads7d githubRepoCount allMetrics
        publishedAt ≤ 1 := by
  obtain ⟨m0, hm0, hm0d⟩ := hitem
  have hcnt : downloads7d ∈ allMetrics.map (fun m => m.downloads_7d) := by
    rw [← hm0d]
    exact List.mem_map_of_mem (fun m => m.downloads_7d) hm0
  by_cases hmax : jsMax (allMetrics.map (fun m => m.downloads_7d)) 0 > 0
  · rw [computeEngagementScore_eq_primary hmax]
    exact normalize_bounds (jsMin_le_of_mem _ 0 hcnt) (le_jsMax_of_mem _ 0 hcnt)
  · rw [computeEngagementScore_eq_fallback hmax]
    split
    · rename_i s hs
      exact recencyTiebreak_bounds hs
    · exact finalFallback_bounds downloads7d allMetrics

/-- Witness for C1 at the batch `[{downloads: 1}, {downloads: 5}]` and the
item with count `5`. -/
theorem engagementScore_mem_unitInterval_witness :
    0 ≤ computeEngagementScore 0 5 0 [⟨1, none⟩, ⟨5, none⟩] none ∧
      computeEngagementScore 0 5 0 [⟨1, none⟩, ⟨5, none⟩] none ≤ 1 :=
  engagementScore_mem_unitInterval 0 5 0 [⟨1, none⟩, ⟨5, none⟩] none
    (by intro m hm; rcases List.mem_cons.mp hm with rfl | hm'
        · norm_num
        · rcases List.mem_cons.mp hm' with rfl | hm''
          · norm_num
          · cases hm'')
    ⟨⟨5, none⟩, by simp, rfl⟩

/-- **C2.** For every batch whose non-negative citation counts are not all
equal, the scores are ordered like the citation counts: for items `a` and
`b` of the batch, `a.downloads_7d ≤ b.downloads_7d` implies that `a`'s
engagement score is at most `b`'s.  (Two unequal non-negative counts force
`Math.max(...counts, 0) > 0`, so every item is scored on the primary path by
the same monotone min-max map.) -/
theorem engagementScore_monotone (now githubRepoCount : ℚ)
    (allMetrics : List PaperMetric) (pa pb : Option JsDate) (a b : PaperMetric)
    (hnn : ∀ m ∈ allMetrics, 0 ≤ m.downloads_7d)
    (hne : ∃ m ∈ allMetrics, ∃ m' ∈ allMetrics,
      m.downloads_7d ≠ m'.downloads_7d)
    (ha : a ∈ allMetrics) (hb : b ∈ allMetrics)
    (hab : a.downloads_7d ≤ b.downloads_7d) :
    computeEngagementScore now a.downloads_7d githubRepoCount allMetrics pa ≤
      computeEngagementScore now b.downloads_7d githubRepoCount allMetrics
        pb := by
  obtain ⟨m, hm, m', hm', hmm⟩ := hne
  have hmax : jsMax (allMetrics.map (fun x => x.downloads_7d)) 0 > 0 := by
    rcases lt_or_gt_of_ne hmm with hlt | hgt
    · have hpos : 0 < m'.downloads_7d := lt_of_le_of_lt (hnn m hm) hlt
      exact lt_of_lt_of_le hpos
        (le_jsMax_of_mem _ 0 (List.mem_map_of_mem (fun x => x.downloads_7d) hm'))
    · have hpos : 0 < m.downloads_7d := lt_of_le_of_lt (hnn m' hm') hgt
      exact lt_of_lt_of_le hpos
        (le_jsMax_of_mem _ 0 (List.mem_map_of_mem (fun x => x.downloads_7d) hm))
  have hlt : jsMin (allMetrics.map (fun x => x.downloads_7d)) 0 <
      jsMax (allMetrics.map (fun x => x.downloads_7d)) 0 :=
    lt_of_le_of_lt (jsMin_le_base _ 0) hmax
  rw [computeEngagementScore_eq_primary hmax,
    computeEngagementScore_eq_primary hmax,
    normalize_eq_div hlt (ne_of_gt hmax), normalize_eq_div hlt (ne_of_gt hmax)]
  have hd : 0 < jsMax (allMetrics.map (fun x => x.downloads_7d)) 0 -
      jsMin (allMetrics.map (fun x => x.downloads_7d)) 0 := sub_pos.mpr hlt
  apply div_le_div_of_nonneg_right ?_ hd.le
  linarith

/-- Witness for C2 at the batch `[{downloads: 1}, {downloads: 5}]`. -/
theorem engagementScore_monotone_witness :
    computeEngagementScore 0 1 0 [⟨1, none⟩, ⟨5, none⟩] none ≤
      computeEngagementScore 0 5 0 [⟨1, none⟩, ⟨5, none⟩] none :=
  engagementScore_monotone 0 0 [⟨1, none⟩, ⟨5, none⟩] none none
    ⟨1, none⟩ ⟨5, none⟩
    (by intro m hm; fin_cases hm <;> norm_num)
    ⟨⟨1, none⟩, by simp, ⟨5, none⟩, by simp, by norm_num⟩
    (by simp) (by simp) (by norm_num)

/-- **C3**, counterexample: in the batch `[{downloads: 1}, {downloads: 5}]`
the item holding the minimum citation count `1` — which differs from the
maximum `5` — scores `1/5`, not `0`: the lower normalization bound is
`Math.min(...counts, 0) = 0`, not the batch minimum `1`. -/
theorem minCitation_item_score_ne_zero :
    computeEngagementScore 0 1 0 [⟨1, none⟩, ⟨5, none⟩] none = 1 / 5 ∧
      (1 / 5 : ℚ) ≠ 0 := by
  constructor
  · norm_num [computeEngagementScore, normalize, jsMin, jsMax]
  · norm_num

/-- **C3**, amended: for a batch of non-negative citation counts with at
least one nonzero count, the item with the maximum count scores exactly `1`,
and an item scores exactly `0` precisely when its count is `0` (not merely
when it differs from the maximum, since the floor `Math.min(...counts, 0)`
pins the lower normalization bound at `0`, making every item's score
`count / max`). -/
theorem maxCitation_one_zeroCitation_zero (now githubRepoCount : ℚ)
    (allMetrics : List PaperMetric) (pa pb : Option JsDate) (a b : PaperMetric)
    (hnn : ∀ m ∈ allMetrics, 0 ≤ m.downloads_7d)
    (hb : b ∈ allMetrics)
    (hbmax : ∀ m ∈ allMetrics, m.downloads_7d ≤ b.downloads_7d)
    (hbpos : 0 < b.downloads_7d) :
    computeEngagementScore now b.downloads_7d githubRepoCount allMetrics pb
        = 1 ∧
      (a ∈ allMetrics →
        (computeEngagementScore now a.downloads_7d githubRepoCount allMetrics
            pa = 0 ↔
          a.downloads_7d = 0)) := by
  have hbmem : b.downloads_7d ∈ allMetrics.map (fun x => x.downloads_7d) :=
    List.mem_map_of_mem (fun x => x.downloads_7d) hb
  have hmax : jsMax (allMetrics.map (fun x => x.downloads_7d)) 0 > 0 :=
    lt_of_lt_of_le hbpos (le_jsMax_of_mem _ 0 hbmem)
  have hmaxeq : jsMax (allMetrics.map (fun x => x.downloads_7d)) 0 =
      b.downloads_7d := by
    refine le_antisymm (jsMax_le _ 0 ?_ hbpos.le) (le_jsMax_of_mem _ 0 hbmem)
    intro y hy
    obtain ⟨m, hm, rfl⟩ := List.mem_map.mp hy
    exact hbmax m hm
  have hmineq : jsMin (allMetrics.map (fun x => x.downloads_7d)) 0 = 0 := by
    refine le_antisymm (jsMin_le_base _ 0) (le_jsMin _ 0 ?_ (le_refl 0))
    intro y hy
    obtain ⟨m, hm, rfl⟩ := List.mem_map.mp hy
    exact hnn m hm
  have hlt : jsMin (allMetrics.map (fun x => x.downloads_7d)) 0 <
      jsMax (allMetrics.map (fun x => x.downloads_7d)) 0 :=
    lt_of_le_of_lt (jsMin_le_base _ 0) hmax
  constructor
  · rw [computeEngagementScore_eq_primary hmax,
      normalize_eq_div hlt (ne_of_gt hmax), hmaxeq, hmineq, sub_zero,
      div_self (ne_of_gt hbpos)]
  · intro ha
    rw [computeEngagementScore_eq_primary hmax,
      normalize_eq_div hlt (ne_of_gt hmax), hmineq, sub_zero, sub_zero]
    constructor
    · intro h
      rcases div_eq_zero_iff.mp h with h' | h'
      · exact h'
      · exact absurd h' (ne_of_gt hmax)
    · intro h
      rw [h, zero_div]

/-- Witness for the amended C3 at the batch
`[{downloads: 0}, {downloads: 5}]`: the max item scores `1` and the
zero-count item scores `0` (by the reverse direction of the iff). -/
theorem maxCitation_one_zeroCitation_zero_witness :
    computeEngagementScore 0 5 0 [⟨0, none⟩, ⟨5, none⟩] none = 1 ∧
      computeEngagementScore 0 0 0 [⟨0, none⟩, ⟨5, none⟩] none = 0 := by
  have h := maxCitation_one_zeroCitation_zero 0 0 [⟨0, none⟩, ⟨5, none⟩]
    none none ⟨0, none⟩ ⟨5, none⟩
    (by intro m hm; fin_cases hm <;> norm_num)
    (by simp)
    (by intro m hm; fin_cases hm <;> norm_num)
    (by norm_num)
  exact ⟨h.1, (h.2 (by simp)).mpr rfl⟩

/-- **C4** (code bug, evaluation at the failing input): for the batch of two
items, both with citation count `0` and the identical `publishedAt`
`new Date(0)` (taking `now` = epoch), the cascade reaches the index rule,
but the index is located by `findIndex(m => m.downloads_7d === downloads7d)`
— the *first* metric with count `0` — so the call made for the second item
(count `0`, its own `publishedAt`) is the very same call as for the first
and also yields `1 - 0/(2-1) = 1`, not the claimed `0`.  A single-item batch
does score `0`, as claimed. -/
theorem tied_two_item_batch_both_score_one :
    computeEngagementScore 0 0 0
        [⟨0, some ⟨0, 0, 0⟩⟩, ⟨0, some ⟨0, 0, 0⟩⟩] (some ⟨0, 0, 0⟩) = 1 ∧
      computeEngagementScore 0 0 0 [⟨0, some ⟨0, 0, 0⟩⟩] (some ⟨0, 0, 0⟩)
        = 0 := by
  constructor <;>
    norm_num [computeEngagementScore, recencyTiebreak, recencyScoresOf,
      publishedDatesOf, indexTiebreak, finalFallback, normalize, jsMin, jsMax,
      jsMaxNE, jsMinNE, recencyScoreAt, hourOfDay, epochDate, List.findIdx?, List.find?]

/-- **C5** (code bug, evaluation at the failing input): for the batch of
three all-zero-citation items published one day apart (newest first, `now` =
the newest publish time), `find(m => m.downloads_7d === downloads7d)`
resolves every call to the *first* (newest) item, whose recency weight
min-max normalizes to `1`; so the newest, middle and oldest items all score
`1` — the scores do not strictly decrease with age, the oldest does not
score `0`, and the middle is not strictly between. -/
theorem one_day_apart_batch_all_score_one :
    computeEngagementScore 0 0 0
        [⟨0, some ⟨0, 0, 0⟩⟩, ⟨0, some ⟨-86400000, 0, 0⟩⟩,
          ⟨0, some ⟨-172800000, 0, 0⟩⟩] (some ⟨0, 0, 0⟩) = 1 ∧
      computeEngagementScore 0 0 0
        [⟨0, some ⟨0, 0, 0⟩⟩, ⟨0, some ⟨-86400000, 0, 0⟩⟩,
          ⟨0, some ⟨-172800000, 0, 0⟩⟩] (some ⟨-86400000, 0, 0⟩) = 1 ∧
      computeEngagementScore 0 0 0
        [⟨0, some ⟨0, 0, 0⟩⟩, ⟨0, some ⟨-86400000, 0, 0⟩⟩,
          ⟨0, some ⟨-172800000, 0, 0⟩⟩] (some ⟨-172800000, 0, 0⟩) = 1 := by
  refine ⟨?_, ?_, ?_⟩ <;>
    norm_num [computeEngagementScore, recencyTiebreak, recencyScoresOf,
      publishedDatesOf, indexTiebreak, finalFallback, normalize, jsMin, jsMax,
      jsMaxNE, jsMinNE, recencyScoreAt, hourOfDay, epochDate, List.findIdx?, List.find?]

/-- **C6.** In the fallback path the current item is located by searching
the batch for the first metric whose `downloads_7d` equals the `downloads7d`
argument, and the `publishedAt` parameter is never read; consequently the
result depends only on the `downloads7d` value and the batch: any two items
of an all-zero-citation batch — whose calls pass the same count `0` but
their own, possibly different, `publishedAt` — receive exactly equal
scores. -/
theorem allZero_batch_scores_agree (now githubRepoCount : ℚ)
    (allMetrics : List PaperMetric) (a b : PaperMetric) (pa pb : Option JsDate)
    (h0 : ∀ m ∈ allMetrics, m.downloads_7d = 0)
    (ha : a ∈ allMetrics) (hb : b ∈ allMetrics) :
    computeEngagementScore now a.downloads_7d githubRepoCount allMetrics pa =
      computeEngagementScore now b.downloads_7d githubRepoCount allMetrics
        pb := by
  rw [h0 a ha, h0 b hb]
  rfl

/-- Witness for C6: two all-zero items with different publish dates receive
equal scores when each call passes its own `publishedAt`. -/
theorem allZero_batch_scores_agree_witness :
    computeEngagementScore 0 0 0
        [⟨0, some ⟨0, 0, 0⟩⟩, ⟨0, some ⟨-3600000, 5, 30⟩⟩]
        (some ⟨0, 0, 0⟩) =
      computeEngagementScore 0 0 0
        [⟨0, some ⟨0, 0, 0⟩⟩, ⟨0, some ⟨-3600000, 5, 30⟩⟩]
        (some ⟨-3600000, 5, 30⟩) :=
  allZero_batch_scores_agree 0 0
    [⟨0, some ⟨0, 0, 0⟩⟩, ⟨0, some ⟨-3600000, 5, 30⟩⟩]
    ⟨0, some ⟨0, 0, 0⟩⟩ ⟨0, some ⟨-3600000, 5, 30⟩⟩
    (some ⟨0, 0, 0⟩) (some ⟨-3600000, 5, 30⟩)
    (by intro m hm; fin_cases hm <;> rfl)
    (by simp) (by simp)

/-- **C10.** The engagement score is independent of the repository-mention
signal: the `githubRepoCount` parameter is never read by the cascade, so two
calls differing only in it return equal scores. -/
theorem score_independent_of_githubRepoCount (now downloads7d g g' : ℚ)
    (allMetrics : List PaperMetric) (publishedAt : Option JsDate) :
    computeEngagementScore now downloads7d g allMetrics publishedAt =
      computeEngagementScore now downloads7d g' allMetrics publishedAt := rfl

/-- **C8**, counterexample: at `value = -1, min = -2, max = 0` we have
`max > min`, yet `normalize` returns `0` while the claimed formula
`(value-min)/(max-min)` gives `1/2`: the `max === 0` test takes precedence
over the `max > min` formula case. -/
theorem normalize_zeroMax_counterexample :
    normalize (-1) (-2) 0 = 0 ∧
      ((-1 : ℚ) - (-2)) / ((0 : ℚ) - (-2)) = 1 / 2 ∧
      ((-2 : ℚ) < 0) ∧ (0 : ℚ) ≠ 1 / 2 :=
  ⟨by norm_num [normalize], by norm_num, by norm_num, by norm_num⟩

/-- **C8**, amended: `normalize` returns `(value-min)/(max-min)` when
`max > min` *and* `max ≠ 0`; it returns `0` when `max == min` or `max == 0`
(the zero test taking precedence over the formula). -/
theorem normalize_characterization (value mn mx : ℚ) :
    (mx = 0 ∨ mx = mn → normalize value mn mx = 0) ∧
      (mn < mx → mx ≠ 0 →
        normalize value mn mx = (value - mn) / (mx - mn)) := by
  constructor
  · intro h
    unfold normalize
    rw [if_pos h]
  · intro h1 h2
    exact normalize_eq_div h1 h2

/-- Witness for the amended C8 at `(3, 1, 5)` (formula case) and
`(-1, -2, 0)` (degenerate case). -/
theorem normalize_characterization_witness :
    normalize 3 1 5 = (3 - 1) / (5 - 1) ∧ normalize (-1) (-2) 0 = 0 :=
  ⟨(normalize_characterization 3 1 5).2 (by norm_num) (by norm_num),
    (normalize_characterization (-1) (-2) 0).1 (Or.inl rfl)⟩

/-! ### C7 lemmas -/

theorem divE_ok {a b : ℚ} (h : b ≠ 0) : divE a b = Except.ok (a / b) := by
  unfold divE
  rw [if_neg h]

theorem one_add_quarter_ne {x : ℚ} (hx : 0 ≤ x) : (1 : ℚ) + x / 24 ≠ 0 := by
  have h24 : (0 : ℚ) ≤ x / 24 := by positivity
  intro h
  linarith

theorem recencyScoreAtE_ok (now : ℚ) (d : JsDate) :
    recencyScoreAtE now d = Except.ok (recencyScoreAt now d) := by
  unfold recencyScoreAtE recencyScoreAt
  simp only [divE_ok (by norm_num : (1000 * 60 * 60 : ℚ) ≠ 0),
    divE_ok (by norm_num : (24 : ℚ) ≠ 0), Bind.bind, Except.bind]
  rw [divE_ok (one_add_quarter_ne (by positivity))]

theorem hourOfDayE_ok (d : JsDate) : hourOfDayE d = Except.ok (hourOfDay d) := by
  unfold hourOfDayE hourOfDay
  rw [divE_ok (by norm_num : (60 : ℚ) ≠ 0)]
  rfl

theorem jsMaxNEE_ok {l : List ℚ} (h : l ≠ []) :
    jsMaxNEE l = Except.ok (jsMaxNE l) := by
  match l with
  | [] => exact absurd rfl h
  | x :: xs => rfl

theorem jsMinNEE_ok {l : List ℚ} (h : l ≠ []) :
    jsMinNEE l = Except.ok (jsMinNE l) := by
  match l with
  | [] => exact absurd rfl h
  | x :: xs => rfl

theorem recencyScoresOfE_ok (now : ℚ) (l : List PaperMetric) :
    recencyScoresOfE now l = Except.ok (recencyScoresOf now l) := by
  induction l with
  | nil => rfl
  | cons m rest ih =>
    unfold recencyScoresOfE
    cases hp : m.published_at with
    | none =>
      simp only [Bind.bind, Except.bind, ih, recencyScoresOf, List.map, hp]
      rfl
    | some d =>
      simp only [recencyScoreAtE_ok, Bind.bind, Except.bind, ih,
        recencyScoresOf, List.map, hp]
      rfl

theorem allHoursOfE_ok (ds : List JsDate) :
    allHoursOfE ds = Except.ok (ds.map hourOfDay) := by
  induction ds with
  | nil => rfl
  | cons d rest ih =>
    unfold allHoursOfE
    simp only [hourOfDayE_ok, Bind.bind, Except.bind, ih, List.map]
    rfl

theorem indexTiebreakE_ok (downloads7d : ℚ) (l : List PaperMetric) :
    indexTiebreakE downloads7d l = Except.ok (indexTiebreak downloads7d l) := by
  unfold indexTiebreakE indexTiebreak
  split
  · rename_i i hi
    split
    · rename_i hn
      have hne : ((l.length : ℚ) - 1) ≠ 0 := by
        have h2 : (1 : ℚ) < (l.length : ℚ) := by exact_mod_cast hn
        intro h
        linarith
      simp only [divE_ok hne, Bind.bind, Except.bind]
      rfl
    · rfl
  · rfl

theorem normalizeE_ok (v mn mx : ℚ) :
    normalizeE v mn mx = Except.ok (normalize v mn mx) := by
  unfold normalizeE normalize
  split
  · rfl
  · rename_i h
    push_neg at h
    exact divE_ok (sub_ne_zero.mpr h.2)

theorem recencyTiebreakE_ok (now downloads7d : ℚ) (l : List PaperMetric) :
    recencyTiebreakE now downloads7d l =
      Except.ok (recencyTiebreak now downloads7d l) := by
  unfold recencyTiebreakE recencyTiebreak
  simp only [recencyScoresOfE_ok, Bind.bind, Except.bind]
  by_cases h1 : (recencyScoresOf now l).length > 0
  · have hne : recencyScoresOf now l ≠ [] := by
      intro hnil
      rw [hnil] at h1
      simp at h1
    rw [if_pos h1, jsMaxNEE_ok hne]
    simp only [Except.bind]
    by_cases h2 : jsMaxNE (recencyScoresOf now l) > 0
    · rw [if_pos h2, if_pos (And.intro h1 h2)]
      obtain hf | ⟨currentMetric, hf⟩ := Option.eq_none_or_eq_some
        (List.find? (fun m => decide (m.downloads_7d = downloads7d)) l)
      · simp only [hf]
        rfl
      · obtain hp | ⟨cd, hp⟩ := Option.eq_none_or_eq_some
          currentMetric.published_at
        · simp only [hf, hp]
          rfl
        · simp only [hf, hp, recencyScoreAtE_ok, jsMinNEE_ok hne,
            jsMaxNEE_ok hne, Bind.bind, Except.bind]
          by_cases h3 : jsMaxNE (recencyScoresOf now l) >
              jsMinNE (recencyScoresOf now l)
          · rw [if_pos h3, if_pos h3, normalizeE_ok]
            rfl
          · rw [if_neg h3, if_neg h3, if_pos h2, if_pos h2]
            have hlne : l ≠ [] := by
              intro hnil
              rw [hnil] at hne
              exact hne rfl
            have hall : (publishedDatesOf l).map hourOfDay ≠ [] := by
              intro hnil
              exact hlne (by
                have h' := List.map_eq_nil_iff.mp hnil
                exact List.map_eq_nil_iff.mp h')
            simp only [hourOfDayE_ok, allHoursOfE_ok, jsMinNEE_ok hall,
              jsMaxNEE_ok hall, Bind.bind, Except.bind]
            by_cases h4 : jsMaxNE ((publishedDatesOf l).map hourOfDay) >
                jsMinNE ((publishedDatesOf l).map hourOfDay)
            · rw [if_pos h4, if_pos h4, normalizeE_ok]
              rfl
            · rw [if_neg h4, if_neg h4, indexTiebreakE_ok]
    · rw [if_neg h2, if_neg (fun hc => h2 hc.2)]
      rfl
  · rw [if_neg h1, if_neg (fun hc => h1 hc.1)]
    rfl

theorem finalFallbackE_ok (downloads7d : ℚ) (l : List PaperMetric) :
    finalFallbackE downloads7d l =
      Except.ok (finalFallback downloads7d l) := by
  unfold finalFallbackE finalFallback
  simp only [indexTiebreakE_ok, Bind.bind, Except.bind]
  obtain h | ⟨s, h⟩ := Option.eq_none_or_eq_some (indexTiebreak downloads7d l)
  · simp only [h]
    rfl
  · simp only [h]
    rfl

/-- **C7.** `computeEngagementScore` is total over its input domain: for
every batch (including the empty one, items with absent `publishedAt`, and
any combination of tied counts or timestamps), the evaluation-tracking
embedding — which reports any division by a zero divisor or any
`Math.max`/`Math.min` over an empty spread, the operations whose JS results
would be non-finite — returns `.ok` of the plain score: no branch of the
cascade fails or leaves the score undefined. -/
theorem computeEngagementScoreE_ok (now downloads7d githubRepoCount : ℚ)
    (allMetrics : List PaperMetric) (publishedAt : Option JsDate) :
    computeEngagementScoreE now downloads7d githubRepoCount allMetrics
        publishedAt =
      Except.ok (computeEngagementScore now downloads7d githubRepoCount
        allMetrics publishedAt) := by
  unfold computeEngagementScoreE computeEngagementScore
  by_cases h : jsMax (allMetrics.map (fun m => m.downloads_7d)) 0 > 0
  · rw [if_pos h, if_pos h, normalizeE_ok]
  · rw [if_neg h, if_neg h]
    simp only [recencyTiebreakE_ok, Bind.bind, Except.bind]
    obtain ht | ⟨s, ht⟩ := Option.eq_none_or_eq_some
      (recencyTiebreak now downloads7d allMetrics)
    · simp only [ht, finalFallbackE_ok]
    · simp only [ht]
      rfl

/-- **C9.** During `computeEngagementScoresForDate`, a failure to write one
item's score is reported for that item only and does not abort the batch:
the write trace equals the per-item image of the fully precomputed `updates`
list — so each trace entry depends only on its own item's write outcome, and
the scores of all items are computed and their writes attempted whatever the
`write` function does — and in particular every input metric's id appears
among the attempted writes. -/
theorem engagementScoresForDate_isolates_write_failures (now : ℚ)
    (metrics : List MetricRow) (paperDateMap : String → Option JsDate)
    (write : String × ℚ → Option String) :
    computeEngagementScoresForDate now metrics paperDateMap write =
        (scoreUpdates now metrics paperDateMap).map
          (fun u => (u.1, write u)) ∧
      ∀ m ∈ metrics, m.id ∈
        (computeEngagementScoresForDate now metrics paperDateMap write).map
          Prod.fst := by
  have hrun : ∀ us : List (String × ℚ),
      runUpdates write us = us.map (fun u => (u.1, write u)) := by
    intro us
    induction us with
    | nil => rfl
    | cons u rest ih =>
      simp only [runUpdates, ih, List.map]
  constructor
  · exact hrun _
  · intro m hm
    show m.id ∈ (runUpdates write (scoreUpdates now metrics paperDateMap)).map
      Prod.fst
    rw [hrun, List.map_map]
    simp only [scoreUpdates, List.map_map]
    refine List.mem_map.mpr ⟨⟨m, paperDateMap m.paper_id⟩, ?_, rfl⟩
    rw [List.mem_mergeSort]
    exact List.mem_map_of_mem (fun x => (⟨x, paperDateMap x.paper_id⟩ :
      MetricWithDate)) hm

/-- Witness for C9: with a write function that fails on the first item, the
second item's write is still attempted. -/
theorem engagementScoresForDate_isolates_write_failures_witness :
    "b" ∈ (computeEngagementScoresForDate 0
        [⟨"a", "pa", 0, 0⟩, ⟨"b", "pb", 0, 0⟩] (fun _ => none)
        (fun u => if u.1 = "a" then some "write failed" else none)).map
      Prod.fst :=
  (engagementScoresForDate_isolates_write_failures 0
      [⟨"a", "pa", 0, 0⟩, ⟨"b", "pb", 0, 0⟩] (fun _ => none)
      (fun u => if u.1 = "a" then some "write failed" else none)).2
    ⟨"b", "pb", 0, 0⟩ (by simp)

end EngagedPapers
